import Mathlib

/-!
Verification development for the Multi-Agent RAG system.

The embedding covers the three core modules the specification describes:

* `src/retriever/builder.py` — the `HybridRetriever` fusion of BM25 and
  vector search results (`hybrid` namespace);
* `src/agents/workflow.py` — the LangGraph workflow state machine
  (`workflow` namespace);
* `src/document_processor/file_handler.py` — the `DocumentProcessor`
  with its on-disk chunk/embedding cache (`docproc` namespace).

Cryptographic hashes (SHA-256 of file or chunk bytes, Python's string
`hash` of `page_content`) are modelled by an injective function on the
hashed content; we take the identity function, which induces exactly the
equalities the hashes are assumed to induce (no collisions).
-/

/-- A langchain `Document`: page content plus the metadata fields the
repository actually reads or writes (`source`, `page`, and the
`embedding` entry attached by `_embed_chunks_in_batches`, modelled as a
flag because its value is opaque to the code under study). -/
structure Doc where
  content : String
  source : String := ""
  page : Nat := 0
  embedded : Bool := false
deriving DecidableEq

/-- The content fingerprint: SHA-256 modelled as an injective function on
the hashed string, taken to be the identity. -/
def fingerprint (s : String) : String := s

namespace hybrid

/-- The body of `HybridRetriever._get_relevant_documents`'s inner loop:
walk one sub-retriever's result list, keeping a document only if the
hash of its `page_content` was not seen before, and recording the hashes
of kept documents.  Returns the kept documents and the updated seen set
(the `seen` set is threaded through the outer loop as well). -/
def fuseOne (seen : List String) : List Doc → List Doc × List String
  | [] => ([], seen)
  | d :: ds =>
    if fingerprint d.content ∈ seen then fuseOne seen ds
    else
      let r := fuseOne (fingerprint d.content :: seen) ds
      (d :: r.1, r.2)

/-- `HybridRetriever._get_relevant_documents`: iterate over the
sub-retrievers' result lists in order, threading the `seen` set. -/
def fuseAll (seen : List String) : List (List Doc) → List Doc
  | [] => []
  | rs :: rest => (fuseOne seen rs).1 ++ fuseAll (fuseOne seen rs).2 rest

/-- The fused result list for given per-sub-retriever result lists. -/
def getRelevantDocuments (results : List (List Doc)) : List Doc :=
  fuseAll [] results

/-- `RetrieverBuilder.build_hybrid_retriever`: the hybrid retriever is
constructed with the sub-retriever list `[bm25, vector_retriever]`, so a
query fuses the BM25 results first, then the vector results. -/
def buildHybridRetriever (bm25 vector : String → List Doc) : String → List Doc :=
  fun query => getRelevantDocuments [bm25 query, vector query]

/-- First-occurrence deduplication by content, stated independently of
the seen-set loop: keep the head, drop every later element with the same
content. -/
def dedupKeepFirst : List Doc → List Doc
  | [] => []
  | d :: ds => d :: dedupKeepFirst (ds.filter fun x => x.content ≠ d.content)
termination_by l => l.length
decreasing_by
  simp only [List.length_cons]
  exact Nat.lt_succ_of_le (List.length_filter_le _ _)

/-- Modelled from the spec: the spec says the fusion weighting has a
"reasonable default [that] favors vector similarity slightly (~60/40)".
A fusion favouring vector similarity must, when a sole lexical result
competes with a sole distinct vector result, rank the vector result
first.  (The missing piece is any weighting logic in the source; the
source fuses by plain concatenation.) -/
def fusionFavoursVector (fuse : List (List Doc) → List Doc) : Prop :=
  ∀ a b : Doc, a.content ≠ b.content → (fuse [[a], [b]]).head? = some b

end hybrid

namespace workflow

/-- The pluggable agent backends of `AgentWorkflow`: the retriever
consulted by `full_pipeline`, the `RelevanceChecker` (a function of the
question — the checker consults only the question and the evidence
retrieved for it through the fixed retriever), the `ResearchAgent` and
the `VerificationAgent` (LLM calls, modelled as arbitrary functions of
their code-level inputs). -/
structure Agents where
  retrieve : String → List Doc
  classify : String → String
  generate : String → List Doc → String
  verify : String → List Doc → String

/-- The `AgentState` TypedDict, extended with two call counters that
instrument how often the research and verification nodes ran (the
spec's "call-count stub" observable). -/
structure AgentState where
  question : String
  documents : List Doc
  draftAnswer : String
  verificationReport : String
  isRelevant : Bool
  researchCalls : Nat
  verifyCalls : Nat
deriving DecidableEq

/-- The nodes of the compiled LangGraph graph, plus the END sentinel. -/
inductive Node
  | checkRelevance
  | research
  | verify
  | terminal
deriving DecidableEq

/-- The fixed user-facing message written by `_check_relevance_step`
when the classification is neither `CAN_ANSWER` nor `PARTIAL`. -/
def notRelevantMsg : String :=
  "This question is not related to the uploaded document(s), or there is insufficient information to answer it."

/-- `AgentWorkflow._check_relevance_step`. -/
def checkRelevanceStep (ag : Agents) (s : AgentState) : AgentState :=
  if ag.classify s.question = "CAN_ANSWER" ∨ ag.classify s.question = "PARTIAL" then
    { s with isRelevant := true }
  else
    { s with isRelevant := false, draftAnswer := notRelevantMsg }

/-- `AgentWorkflow._decide_after_relevance_check`. -/
def decideAfterRelevanceCheck (s : AgentState) : String :=
  if s.isRelevant then "relevant" else "irrelevant"

/-- `AgentWorkflow._research_step`, counting the call. -/
def researchStep (ag : Agents) (s : AgentState) : AgentState :=
  { s with draftAnswer := ag.generate s.question s.documents,
           researchCalls := s.researchCalls + 1 }

/-- `AgentWorkflow._verification_step`, counting the call. -/
def verificationStep (ag : Agents) (s : AgentState) : AgentState :=
  { s with verificationReport := ag.verify s.draftAnswer s.documents,
           verifyCalls := s.verifyCalls + 1 }

/-- Python's substring containment test `sub in s`. -/
def containsStr (sub s : String) : Bool := decide (sub.data <:+: s.data)

/-- `AgentWorkflow._decide_next_step`. -/
def decideNextStep (report : String) : String :=
  if containsStr "Supported: NO" report || containsStr "Relevant: NO" report then
    "re_research"
  else
    "end"

/-- One superstep of the compiled graph built by
`AgentWorkflow.build_workflow`: run the current node's function, then
follow its (conditional) edge. -/
def stepGraph (ag : Agents) : Node × AgentState → Node × AgentState
  | (.checkRelevance, s) =>
    let s1 := checkRelevanceStep ag s
    (if decideAfterRelevanceCheck s1 = "relevant" then .research else .terminal, s1)
  | (.research, s) => (.verify, researchStep ag s)
  | (.verify, s) =>
    let s1 := verificationStep ag s
    (if decideNextStep s1.verificationReport = "re_research" then .research else .terminal, s1)
  | (.terminal, s) => (.terminal, s)

/-- Run the graph for at most `fuel` supersteps, stopping at END. -/
def runGraph (ag : Agents) : Nat → Node × AgentState → Node × AgentState
  | 0, c => c
  | n + 1, c => if c.1 = .terminal then c else runGraph ag n (stepGraph ag c)

/-- The initial state assembled by `AgentWorkflow.full_pipeline`:
documents come from `retriever.invoke(question)`, everything else is
empty/false. -/
def initState (ag : Agents) (q : String) : AgentState :=
  { question := q
    documents := ag.retrieve q
    draftAnswer := ""
    verificationReport := ""
    isRelevant := false
    researchCalls := 0
    verifyCalls := 0 }

/-- The graph configuration reached by `full_pipeline` after at most
`fuel` supersteps from the entry point `check_relevance`. -/
def fullPipelineTrace (ag : Agents) (fuel : Nat) (q : String) : Node × AgentState :=
  runGraph ag fuel (.checkRelevance, initState ag q)

/-- `AgentWorkflow.full_pipeline`: if the graph reaches END within
`fuel` supersteps the pair `(draft_answer, verification_report)` is
returned; `none` means the run did not terminate within `fuel`
supersteps. -/
def fullPipeline (ag : Agents) (fuel : Nat) (q : String) : Option (String × String) :=
  match fullPipelineTrace ag fuel q with
  | (.terminal, s) => some (s.draftAnswer, s.verificationReport)
  | _ => none

/-- A verifier stub that always reports `Supported: NO`, together with a
relevance checker that lets the question through (the spec's bounded
retry scenario). -/
def alwaysNoAgents : Agents :=
  { retrieve := fun _ => []
    classify := fun _ => "CAN_ANSWER"
    generate := fun _ _ => "draft answer"
    verify := fun _ _ => "Supported: NO" }

/-- Agents whose relevance checker rejects every question. -/
def offTopicAgents : Agents :=
  { retrieve := fun _ => []
    classify := fun _ => "NO_DATA"
    generate := fun _ _ => "draft answer"
    verify := fun _ _ => "Supported: YES" }

/-- Agents whose verifier emits a report with no decision markers. -/
def unparsableAgents : Agents :=
  { retrieve := fun _ => []
    classify := fun _ => "CAN_ANSWER"
    generate := fun _ _ => "draft answer"
    verify := fun _ _ => "gibberish with no markers" }

end workflow

namespace docproc

/-- A cache entry as pickled by `_save_to_cache`: the write-time
timestamp together with the chunk payload.  The entry's filesystem
mtime, which `_is_cache_valid` measures against, coincides with this
write-time timestamp in the single-writer model. -/
structure CacheEntry where
  timestamp : Int
  chunks : List Doc
deriving DecidableEq

/-- The cache directory: an association list from cache-file path to
entry; `writeCache` overwrites the entry at a path. -/
abbrev Cache := List (String × CacheEntry)

/-- Look up the entry stored at `path` (the file on disk, if any). -/
def lookupCache : Cache → String → Option CacheEntry
  | [], _ => none
  | (k, e) :: rest, path => if k = path then some e else lookupCache rest path

/-- Remove the entry stored at `path`. -/
def eraseKey : Cache → String → Cache
  | [], _ => []
  | (k, e) :: rest, path =>
    if k = path then eraseKey rest path else (k, e) :: eraseKey rest path

/-- Overwrite the cache file at `path` with a fresh entry. -/
def writeCache (c : Cache) (path : String) (e : CacheEntry) : Cache :=
  (path, e) :: eraseKey c path

/-- `_is_cache_valid` combined with `_load_from_cache`: the payload is
loaded exactly when the cache file exists and its age
`now - entry.timestamp` is strictly below the expiry window. -/
def cacheLookupValid (c : Cache) (path : String) (now expiry : Int) : Option (List Doc) :=
  match lookupCache c path with
  | none => none
  | some e => if now - e.timestamp < expiry then some e.chunks else none

/-- `_is_cache_valid` alone. -/
def isCacheValid (c : Cache) (path : String) (now expiry : Int) : Bool :=
  (cacheLookupValid c path now expiry).isSome

/-- One input file handed to `DocumentProcessor.process`.
`readResult` is the outcome of `open(file.name, "rb").read()` (`none`
models an unreadable file, i.e. an exception).  `extract` is the
outcome of `_process_file` followed by `_split_documents`: `none`
models an extraction exception, `some []` a file yielding no content
(in particular any unsupported extension, for which `_process_file`
logs a warning and returns `[]`). -/
structure InputFile where
  name : String
  size : Nat
  readResult : Option String
  extract : Option (List Doc)
deriving DecidableEq

/-- The configuration threaded through a `process` call: whether an
embeddings backend was supplied to the constructor, the current wall
clock, the cache expiry window (`settings.CACHE_EXPIRE_DAYS`, in the
same unit as the clock) and `constants.MAX_TOTAL_SIZE`. -/
structure ProcConfig where
  hasEmbeddings : Bool
  now : Int
  expiry : Int
  maxTotalSize : Nat
deriving DecidableEq

/-- `_embed_chunks_in_batches` on a single document: the embedding is
attached to the metadata; content is untouched. -/
def embedDoc (d : Doc) : Doc := { d with embedded := true }

/-- `_embed_chunks_in_batches`: the batches are traversed in order and
re-concatenated, so the whole pass is a map over the list. -/
def embedChunks (l : List Doc) : List Doc := l.map embedDoc

/-- The deduplication loop of `process`: keep a chunk only if the
SHA-256 of its `page_content` is not in `seen_hashes`, adding the kept
chunks' hashes to `seen_hashes`. -/
def dedupChunks (seen : List String) : List Doc → List Doc × List String
  | [] => ([], seen)
  | c :: cs =>
    if fingerprint c.content ∈ seen then dedupChunks seen cs
    else
      let r := dedupChunks (fingerprint c.content :: seen) cs
      (c :: r.1, r.2)

/-- The mutable state threaded through `process`'s file loop: the cache
directory, `all_chunks`, and `seen_hashes`. -/
structure PState where
  cache : Cache
  allChunks : List Doc
  seen : List String
deriving DecidableEq

/-- The tail of `process`'s loop body from the deduplication block on:
deduplicate against `seen_hashes`, then, if an embeddings backend is
configured, either load the embeddings cache (replacing the chunk list
wholesale) or embed the deduplicated chunks and persist them; finally
extend `all_chunks`. -/
def afterDedup (cfg : ProcConfig) (st : PState) (chunks : List Doc)
    (embedPath : String) : PState :=
  let dd := dedupChunks st.seen chunks
  if cfg.hasEmbeddings then
    match cacheLookupValid st.cache embedPath cfg.now cfg.expiry with
    | some cachedEmb =>
      { st with allChunks := st.allChunks ++ cachedEmb, seen := dd.2 }
    | none =>
      let embedded := embedChunks dd.1
      { st with
        cache := writeCache st.cache embedPath ⟨cfg.now, embedded⟩
        allChunks := st.allChunks ++ embedded
        seen := dd.2 }
  else
    { st with allChunks := st.allChunks ++ dd.1, seen := dd.2 }

/-- One iteration of `process`'s file loop (the `try` body; every
modelled exception path reproduces the `except: continue`). -/
def processFile (cfg : ProcConfig) (st : PState) (f : InputFile) : PState :=
  match f.readResult with
  | none => st
  | some bytes =>
    let chunkPath := fingerprint bytes ++ "_chunks"
    let embedPath := fingerprint bytes ++ "_embeddings"
    match cacheLookupValid st.cache chunkPath cfg.now cfg.expiry with
    | some cached => afterDedup cfg st cached embedPath
    | none =>
      match f.extract with
      | none => st
      | some [] => st
      | some chunks =>
        afterDedup cfg
          { st with cache := writeCache st.cache chunkPath ⟨cfg.now, chunks⟩ }
          chunks embedPath

/-- The total byte size summed by `validate_files`. -/
def totalSize (files : List InputFile) : Nat := (files.map (·.size)).sum

/-- The error message raised by `validate_files`. -/
def sizeLimitError : String := "Total size exceeds limit"

/-- `DocumentProcessor.process`: validate the total size (raising
before any file is touched), then run the file loop and truncate to
`max_chunks`.  The final cache directory contents are returned next to
the result so that the cache footprint of a call is observable. -/
def process (cfg : ProcConfig) (cache0 : Cache) (files : List InputFile)
    (maxChunks : Nat) : Except String (List Doc) × Cache :=
  if totalSize files > cfg.maxTotalSize then
    (.error sizeLimitError, cache0)
  else
    let final := files.foldl (processFile cfg) ⟨cache0, [], []⟩
    (.ok (final.allChunks.take maxChunks), final.cache)

/-- A file fails in this `process` call when reading raises, or when no
valid chunk cache exists and extraction raises or yields no chunks
(unreadable file, extraction error, unsupported extension). -/
def fileFails (cache : Cache) (cfg : ProcConfig) (f : InputFile) : Bool :=
  match f.readResult with
  | none => true
  | some bytes =>
    (cacheLookupValid cache (fingerprint bytes ++ "_chunks") cfg.now cfg.expiry).isNone
      && decide (f.extract = none ∨ f.extract = some [])

/-- The per-call invariant behind global deduplication: the chunks
accumulated so far have pairwise distinct fingerprints, all recorded in
`seen_hashes`. -/
def DedupInv (st : PState) : Prop :=
  ((st.allChunks.map fun c => fingerprint c.content).Nodup) ∧
    ∀ c ∈ st.allChunks, fingerprint c.content ∈ st.seen

/-- A chunk whose content appears verbatim in two different files. -/
def sharedChunk : Doc := { content := "shared paragraph" }

/-- Configuration with an embeddings backend, used by the
deduplication counterexample. -/
def embCfg : ProcConfig :=
  { hasEmbeddings := true, now := 0, expiry := 1, maxTotalSize := 100 }

/-- First file containing the shared chunk. -/
def fileA : InputFile :=
  { name := "a.txt", size := 1, readResult := some "bytes of a", extract := some [sharedChunk] }

/-- Second file containing the shared chunk. -/
def fileB : InputFile :=
  { name := "b.txt", size := 1, readResult := some "bytes of b", extract := some [sharedChunk] }

/-- The cache directory left behind by a first `process` call over
`fileB` alone (with the embeddings backend configured). -/
def cacheAfterB : Cache := (process embCfg [] [fileB] 300).2

/-- The shared chunk after `_embed_chunks_in_batches` attached an
embedding to it. -/
def sharedChunkE : Doc := { content := "shared paragraph", embedded := true }

/-- Configuration without an embeddings backend (the app constructs
`DocumentProcessor()` with `embeddings=None`). -/
def noEmbCfg : ProcConfig :=
  { hasEmbeddings := false, now := 0, expiry := 1, maxTotalSize := 100 }

/-- A file pushing the batch over the size ceiling. -/
def bigFile : InputFile :=
  { name := "big.pdf", size := 300, readResult := some "big bytes",
    extract := some [sharedChunk] }

/-- A file with an unsupported extension: `_process_file` logs a
warning and returns no documents. -/
def badDocx : InputFile :=
  { name := "slides.docx", size := 1, readResult := some "docx bytes",
    extract := some [] }

/-- A file whose chunk cache entry is present in `cachedState`. -/
def cachedFile : InputFile :=
  { name := "c.txt", size := 1, readResult := some "cached bytes",
    extract := some [sharedChunk] }

/-- A processing state holding a chunk cache entry for `cachedFile`,
written at time 0. -/
def cachedState : PState :=
  { cache := [("cached bytes_chunks", { timestamp := 0, chunks := [sharedChunk] })],
    allChunks := [], seen := [] }

/-- The empty processing state over an empty cache directory. -/
def emptyPState : PState := { cache := [], allChunks := [], seen := [] }

end docproc

namespace hybrid

lemma fuseOne_eq_dedup (l : List Doc) :
    ∀ seen, (fuseOne seen l).1 =
      dedupKeepFirst (l.filter fun d => fingerprint d.content ∉ seen) := by
  induction l with
  | nil => intro seen; simp [fuseOne, dedupKeepFirst]
  | cons d ds ih =>
    intro seen
    by_cases h : fingerprint d.content ∈ seen
    · simp only [fuseOne, if_pos h, List.filter_cons]
      have : (decide (fingerprint d.content ∉ seen)) = false := by
        simp [h]
      rw [this]
      simpa using ih seen
    · simp only [fuseOne, if_neg h, List.filter_cons]
      rw [if_pos (by simpa using h), dedupKeepFirst]
      simp only [List.cons.injEq, true_and]
      rw [ih (fingerprint d.content :: seen), List.filter_filter]
      apply congrArg
      apply List.filter_congr
      intro x _
      by_cases hx : x.content = d.content <;> simp [hx, fingerprint]

lemma fuseOne_append (l1 l2 : List Doc) :
    ∀ seen, fuseOne seen (l1 ++ l2) =
      ((fuseOne seen l1).1 ++ (fuseOne (fuseOne seen l1).2 l2).1,
        (fuseOne (fuseOne seen l1).2 l2).2) := by
  induction l1 with
  | nil => intro seen; simp [fuseOne]
  | cons d ds ih =>
    intro seen
    by_cases h : fingerprint d.content ∈ seen
    · simp only [List.cons_append, fuseOne, if_pos h]
      exact ih seen
    · simp only [List.cons_append, fuseOne, if_neg h, List.append_eq]
      rw [ih (fingerprint d.content :: seen)]

lemma fuseOne_nodup (l : List Doc) :
    ∀ seen, (((fuseOne seen l).1.map fun d => fingerprint d.content).Nodup) ∧
      (∀ d ∈ (fuseOne seen l).1, fingerprint d.content ∉ seen) := by
  induction l with
  | nil => intro seen; simp [fuseOne]
  | cons d ds ih =>
    intro seen
    by_cases h : fingerprint d.content ∈ seen
    · simp only [fuseOne, if_pos h]
      exact ih seen
    · simp only [fuseOne, if_neg h, List.map_cons, List.nodup_cons]
      obtain ⟨ihnd, ihmem⟩ := ih (fingerprint d.content :: seen)
      refine ⟨⟨?_, ihnd⟩, ?_⟩
      · intro hmem
        obtain ⟨x, hx, hxe⟩ := List.mem_map.mp hmem
        exact ihmem x hx (hxe ▸ List.mem_cons_self _ _)
      · intro x hx
        rcases List.mem_cons.mp hx with rfl | hx'
        · exact h
        · intro hxs
          exact ihmem x hx' (List.mem_cons_of_mem _ hxs)

lemma fuseOne_sublist (l : List Doc) :
    ∀ seen, List.Sublist (fuseOne seen l).1 l := by
  induction l with
  | nil => intro seen; simp [fuseOne]
  | cons d ds ih =>
    intro seen
    by_cases h : fingerprint d.content ∈ seen
    · simp only [fuseOne, if_pos h]
      exact (ih seen).cons d
    · simp only [fuseOne, if_neg h]
      exact (ih (fingerprint d.content :: seen)).cons₂ d

lemma getRelevantDocuments_pair (lex vec : List Doc) :
    getRelevantDocuments [lex, vec] =
      (fuseOne [] lex).1 ++ (fuseOne (fuseOne [] lex).2 vec).1 := by
  simp [getRelevantDocuments, fuseAll]

lemma getRelevantDocuments_eq_dedup (lex vec : List Doc) :
    getRelevantDocuments [lex, vec] = dedupKeepFirst (lex ++ vec) := by
  rw [getRelevantDocuments_pair]
  have h := fuseOne_append lex vec []
  have h1 : (fuseOne [] (lex ++ vec)).1 =
      (fuseOne [] lex).1 ++ (fuseOne (fuseOne [] lex).2 vec).1 := by
    rw [h]
  rw [← h1, fuseOne_eq_dedup]
  congr 1
  apply List.filter_eq_self.mpr
  intro a _
  simp

lemma fuseOne_seen_mono (l : List Doc) :
    ∀ seen x, x ∈ seen → x ∈ (fuseOne seen l).2 := by
  induction l with
  | nil => intro seen x hx; simpa [fuseOne] using hx
  | cons d ds ih =>
    intro seen x hx
    by_cases h : fingerprint d.content ∈ seen
    · simp only [fuseOne, if_pos h]
      exact ih seen x hx
    · simp only [fuseOne, if_neg h]
      exact ih _ x (List.mem_cons_of_mem _ hx)

lemma fuseOne_mem_seen (l : List Doc) :
    ∀ seen, ∀ d ∈ (fuseOne seen l).1, fingerprint d.content ∈ (fuseOne seen l).2 := by
  induction l with
  | nil => intro seen d hd; simp [fuseOne] at hd
  | cons d ds ih =>
    intro seen x hx
    by_cases h : fingerprint d.content ∈ seen
    · simp only [fuseOne, if_pos h] at hx ⊢
      exact ih seen x hx
    · simp only [fuseOne, if_neg h] at hx ⊢
      rcases List.mem_cons.mp hx with rfl | hx'
      · exact fuseOne_seen_mono ds _ _ (List.mem_cons_self _ _)
      · exact ih _ x hx'

lemma getRelevantDocuments_nodup (lex vec : List Doc) :
    ((getRelevantDocuments [lex, vec]).map fun d => fingerprint d.content).Nodup := by
  rw [getRelevantDocuments_pair, List.map_append]
  rw [List.nodup_append]
  refine ⟨(fuseOne_nodup lex []).1, (fuseOne_nodup vec _).1, ?_⟩
  intro x hx hy
  obtain ⟨dx, hdx, rfl⟩ := List.mem_map.mp hx
  obtain ⟨dy, hdy, he⟩ := List.mem_map.mp hy
  apply (fuseOne_nodup vec (fuseOne [] lex).2).2 dy hdy
  rw [he]
  exact fuseOne_mem_seen lex [] dx hdx

end hybrid

namespace workflow

lemma runGraph_terminal (ag : Agents) (n : Nat) (s : AgentState) :
    runGraph ag n (.terminal, s) = (.terminal, s) := by
  induction n with
  | zero => rfl
  | succ n ih => simp [runGraph]

lemma runGraph_succ_of_ne (ag : Agents) (n : Nat) (c : Node × AgentState)
    (h : c.1 ≠ .terminal) :
    runGraph ag (n + 1) c = runGraph ag n (stepGraph ag c) := by
  simp [runGraph, h]

lemma stepGraph_research (ag : Agents) (s : AgentState) :
    stepGraph ag (.research, s) = (.verify, researchStep ag s) := rfl

lemma stepGraph_verify_marker (ag : Agents) (s : AgentState)
    (h : containsStr "Supported: NO" (ag.verify s.draftAnswer s.documents) = true) :
    stepGraph ag (.verify, s) = (.research, verificationStep ag s) := by
  have hdec : decideNextStep (verificationStep ag s).verificationReport = "re_research" := by
    simp [verificationStep, decideNextStep, h]
  simp [stepGraph, hdec]

lemma loop_no_terminal (ag : Agents)
    (hv : ∀ d docs, containsStr "Supported: NO" (ag.verify d docs) = true) :
    ∀ n s, (runGraph ag n (.research, s)).1 ≠ Node.terminal ∧
      (runGraph ag n (.verify, s)).1 ≠ Node.terminal := by
  intro n
  induction n with
  | zero => intro s; exact ⟨by simp [runGraph], by simp [runGraph]⟩
  | succ n ih =>
    intro s
    constructor
    · rw [runGraph_succ_of_ne ag n (.research, s) (by simp), stepGraph_research]
      exact (ih (researchStep ag s)).2
    · rw [runGraph_succ_of_ne ag n (.verify, s) (by simp),
        stepGraph_verify_marker ag s (hv _ _)]
      exact (ih (verificationStep ag s)).1

lemma pipeline_none_of_always_unsupported (ag : Agents) (q : String)
    (hc : ag.classify q = "CAN_ANSWER" ∨ ag.classify q = "PARTIAL")
    (hv : ∀ d docs, containsStr "Supported: NO" (ag.verify d docs) = true) :
    ∀ fuel, fullPipeline ag fuel q = none := by
  intro fuel
  cases fuel with
  | zero => rfl
  | succ n =>
    have hstep : stepGraph ag (.checkRelevance, initState ag q) =
        (.research, checkRelevanceStep ag (initState ag q)) := by
      have hrel : checkRelevanceStep ag (initState ag q) =
          { initState ag q with isRelevant := true } := by
        simp only [checkRelevanceStep, initState]
        rw [if_pos hc]
      simp [stepGraph, hrel, decideAfterRelevanceCheck]
    have htr : fullPipelineTrace ag (n + 1) q =
        runGraph ag n (.research, checkRelevanceStep ag (initState ag q)) := by
      unfold fullPipelineTrace
      rw [runGraph_succ_of_ne ag n _ (by simp), hstep]
    have hnt := (loop_no_terminal ag hv n (checkRelevanceStep ag (initState ag q))).1
    unfold fullPipeline
    rw [htr]
    rcases hres : runGraph ag n (.research, checkRelevanceStep ag (initState ag q)) with ⟨node, s⟩
    rw [hres] at hnt
    cases node with
    | terminal => exact absurd rfl hnt
    | checkRelevance => rfl
    | research => rfl
    | verify => rfl

lemma trace_irrelevant (ag : Agents) (q : String) (n : Nat)
    (h1 : ag.classify q ≠ "CAN_ANSWER") (h2 : ag.classify q ≠ "PARTIAL") :
    fullPipelineTrace ag (n + 1) q =
      (.terminal,
        { initState ag q with isRelevant := false, draftAnswer := notRelevantMsg }) := by
  have hrel : checkRelevanceStep ag (initState ag q) =
      { initState ag q with isRelevant := false, draftAnswer := notRelevantMsg } := by
    simp only [checkRelevanceStep, initState]
    rw [if_neg (by simp [h1, h2])]
  have hstep : stepGraph ag (.checkRelevance, initState ag q) =
      (.terminal,
        { initState ag q with isRelevant := false, draftAnswer := notRelevantMsg }) := by
    simp [stepGraph, hrel, decideAfterRelevanceCheck]
  unfold fullPipelineTrace
  rw [runGraph_succ_of_ne ag n _ (by simp), hstep, runGraph_terminal]

end workflow

namespace docproc

lemma lookupCache_write_self (c : Cache) (path : String) (e : CacheEntry) :
    lookupCache (writeCache c path e) path = some e := by
  simp [writeCache, lookupCache]

lemma dedupChunks_eq_fuseOne (l : List Doc) :
    ∀ seen, dedupChunks seen l = hybrid.fuseOne seen l := by
  induction l with
  | nil => intro seen; rfl
  | cons c cs ih =>
    intro seen
    by_cases h : fingerprint c.content ∈ seen
    · simp [dedupChunks, hybrid.fuseOne, h, ih]
    · simp [dedupChunks, hybrid.fuseOne, h, ih]

lemma afterDedup_noEmb (cfg : ProcConfig) (st : PState) (chunks : List Doc)
    (p : String) (hemb : cfg.hasEmbeddings = false) :
    afterDedup cfg st chunks p =
      { st with allChunks := st.allChunks ++ (dedupChunks st.seen chunks).1,
                seen := (dedupChunks st.seen chunks).2 } := by
  simp [afterDedup, hemb]

lemma DedupInv_afterDedup (cfg : ProcConfig) (st : PState) (chunks : List Doc)
    (p : String) (hemb : cfg.hasEmbeddings = false) (h : DedupInv st) :
    DedupInv (afterDedup cfg st chunks p) := by
  rw [afterDedup_noEmb cfg st chunks p hemb]
  obtain ⟨hnd, hmem⟩ := h
  constructor
  · simp only [List.map_append, List.nodup_append]
    refine ⟨hnd, ?_, ?_⟩
    · rw [dedupChunks_eq_fuseOne]
      exact (hybrid.fuseOne_nodup chunks st.seen).1
    · intro x hx hy
      obtain ⟨dx, hdx, rfl⟩ := List.mem_map.mp hx
      obtain ⟨dy, hdy, he⟩ := List.mem_map.mp hy
      rw [dedupChunks_eq_fuseOne] at hdy
      apply (hybrid.fuseOne_nodup chunks st.seen).2 dy hdy
      rw [he]
      exact hmem dx hdx
  · intro c hc
    simp only [List.mem_append] at hc
    rw [dedupChunks_eq_fuseOne] at hc ⊢
    rcases hc with hc | hc
    · exact hybrid.fuseOne_seen_mono chunks st.seen _ (hmem c hc)
    · exact hybrid.fuseOne_mem_seen chunks st.seen c hc

lemma DedupInv_cacheIrrelevant (st : PState) (c : Cache) (h : DedupInv st) :
    DedupInv { st with cache := c } := h

lemma DedupInv_processFile (cfg : ProcConfig) (hemb : cfg.hasEmbeddings = false)
    (st : PState) (f : InputFile) (h : DedupInv st) :
    DedupInv (processFile cfg st f) := by
  rcases hr : f.readResult with _ | bytes
  · simpa [processFile, hr] using h
  · rcases hc : cacheLookupValid st.cache (fingerprint bytes ++ "_chunks")
        cfg.now cfg.expiry with _ | cached
    · rcases he : f.extract with _ | cs
      · simpa [processFile, hr, hc, he] using h
      · cases cs with
        | nil => simpa [processFile, hr, hc, he] using h
        | cons c cs' =>
          simp only [processFile, hr, hc, he]
          exact DedupInv_afterDedup cfg _ _ _ hemb
            (DedupInv_cacheIrrelevant st _ h)
    · simp only [processFile, hr, hc]
      exact DedupInv_afterDedup cfg st _ _ hemb h

lemma DedupInv_foldl (cfg : ProcConfig) (hemb : cfg.hasEmbeddings = false)
    (files : List InputFile) :
    ∀ st, DedupInv st → DedupInv (files.foldl (processFile cfg) st) := by
  induction files with
  | nil => intro st h; exact h
  | cons f fs ih =>
    intro st h
    exact ih _ (DedupInv_processFile cfg hemb st f h)

lemma processFile_fails (cfg : ProcConfig) (st : PState) (f : InputFile)
    (hf : fileFails st.cache cfg f = true) :
    processFile cfg st f = st := by
  unfold fileFails at hf
  rcases hr : f.readResult with _ | bytes
  · simp [processFile, hr]
  · rw [hr] at hf
    simp only [Bool.and_eq_true, Option.isNone_iff_eq_none, decide_eq_true_eq] at hf
    obtain ⟨hcache, hext⟩ := hf
    rcases hext with hext | hext <;> simp [processFile, hr, hcache, hext]

lemma totalSize_append (l1 l2 : List InputFile) :
    totalSize (l1 ++ l2) = totalSize l1 + totalSize l2 := by
  simp [totalSize]

end docproc

lemma alwaysNoAgents_marker (d : String) (docs : List Doc) :
    workflow.containsStr "Supported: NO" (workflow.alwaysNoAgents.verify d docs) = true := by
  show workflow.containsStr "Supported: NO" "Supported: NO" = true
  decide

/-- C1 counterexample: with a verifier stub whose report always contains
`Supported: NO`, `full_pipeline` does not reach the END node within any
number of supersteps: there is no bound within which it terminates, so
it does not cap the Research–Verify cycles and return an annotated
report. -/
theorem retry_cap_counterexample :
    ¬ ∃ fuel : Nat,
      (workflow.fullPipeline workflow.alwaysNoAgents fuel
        "What does the document say?").isSome = true := by
  rintro ⟨fuel, hf⟩
  rw [workflow.pipeline_none_of_always_unsupported workflow.alwaysNoAgents
      "What does the document say?" (Or.inl rfl) alwaysNoAgents_marker fuel] at hf
  simp at hf

/-- C1 (amended): the repository code has no retry cap: whenever the
relevance gate lets the question through and every verification report
contains the literal marker `Supported: NO`, the decision step returns
`re_research` on every cycle and `full_pipeline` never reaches the END
node within any superstep bound — it cycles Research–Verify
indefinitely instead of terminating with an annotated report. -/
theorem retry_unbounded (ag : workflow.Agents) (q : String)
    (hc : ag.classify q = "CAN_ANSWER" ∨ ag.classify q = "PARTIAL")
    (hv : ∀ d docs, workflow.containsStr "Supported: NO" (ag.verify d docs) = true)
    (fuel : Nat) :
    workflow.fullPipeline ag fuel q = none :=
  workflow.pipeline_none_of_always_unsupported ag q hc hv fuel

theorem retry_unbounded_witness :
    workflow.fullPipeline workflow.alwaysNoAgents 25 "What does the document say?" =
      none :=
  retry_unbounded workflow.alwaysNoAgents "What does the document say?" (Or.inl rfl)
    alwaysNoAgents_marker 25

/-- C2: when the relevance classification is neither `CAN_ANSWER` nor
`PARTIAL`, `full_pipeline` reaches END immediately with
`is_relevant = false`, returning the fixed not-related message with an
empty verification report, and the draft generator and the verifier are
never invoked. -/
theorem relevance_gate_short_circuit (ag : workflow.Agents) (q : String) (fuel : Nat)
    (hf : 1 ≤ fuel)
    (h1 : ag.classify q ≠ "CAN_ANSWER") (h2 : ag.classify q ≠ "PARTIAL") :
    workflow.fullPipeline ag fuel q = some (workflow.notRelevantMsg, "") ∧
      (workflow.fullPipelineTrace ag fuel q).2.isRelevant = false ∧
      (workflow.fullPipelineTrace ag fuel q).2.researchCalls = 0 ∧
      (workflow.fullPipelineTrace ag fuel q).2.verifyCalls = 0 := by
  obtain ⟨n, rfl⟩ : ∃ n, fuel = n + 1 :=
    ⟨fuel - 1, (Nat.succ_pred_eq_of_pos hf).symm⟩
  have ht := workflow.trace_irrelevant ag q n h1 h2
  refine ⟨?_, ?_, ?_, ?_⟩
  · unfold workflow.fullPipeline
    rw [ht]
    rfl
  · rw [ht]
  · rw [ht]
    rfl
  · rw [ht]
    rfl

theorem relevance_gate_short_circuit_witness :
    workflow.fullPipeline workflow.offTopicAgents 3 "Who won the 1998 World Cup?" =
        some (workflow.notRelevantMsg, "") ∧
      (workflow.fullPipelineTrace workflow.offTopicAgents 3
        "Who won the 1998 World Cup?").2.isRelevant = false ∧
      (workflow.fullPipelineTrace workflow.offTopicAgents 3
        "Who won the 1998 World Cup?").2.researchCalls = 0 ∧
      (workflow.fullPipelineTrace workflow.offTopicAgents 3
        "Who won the 1998 World Cup?").2.verifyCalls = 0 :=
  relevance_gate_short_circuit workflow.offTopicAgents "Who won the 1998 World Cup?" 3
    (by decide) (by decide) (by decide)

/-- C3: for every query and every chunk set behind the two
sub-retrievers, the hybrid retriever's fused result is the BM25 result
list followed by the vector result list, deduplicated by content
keeping the first occurrence of each content, and no two returned
results share a content fingerprint. -/
theorem hybrid_fusion_dedup (bm25 vector : String → List Doc) (query : String) :
    hybrid.buildHybridRetriever bm25 vector query =
        hybrid.dedupKeepFirst (bm25 query ++ vector query) ∧
      ((hybrid.buildHybridRetriever bm25 vector query).map
          fun d => fingerprint d.content).Nodup :=
  ⟨hybrid.getRelevantDocuments_eq_dedup (bm25 query) (vector query),
    hybrid.getRelevantDocuments_nodup (bm25 query) (vector query)⟩

/-- C4: the controller transitions from the verify node back to
research exactly when the verification report contains the literal
marker `Supported: NO` or the literal marker `Relevant: NO`; a report
containing neither marker (however unparsable) leads to END with the
current draft unchanged and the report recorded, never to a retry. -/
theorem verify_decision_markers (ag : workflow.Agents) (s : workflow.AgentState) :
    ((workflow.stepGraph ag (workflow.Node.verify, s)).1 = workflow.Node.research ↔
        ("Supported: NO".data <:+: (ag.verify s.draftAnswer s.documents).data ∨
          "Relevant: NO".data <:+: (ag.verify s.draftAnswer s.documents).data)) ∧
      (¬ ("Supported: NO".data <:+: (ag.verify s.draftAnswer s.documents).data ∨
            "Relevant: NO".data <:+: (ag.verify s.draftAnswer s.documents).data) →
        workflow.stepGraph ag (workflow.Node.verify, s) =
          (workflow.Node.terminal,
            { s with
                verificationReport := ag.verify s.draftAnswer s.documents,
                verifyCalls := s.verifyCalls + 1 })) := by
  by_cases h : ("Supported: NO".data <:+: (ag.verify s.draftAnswer s.documents).data ∨
      "Relevant: NO".data <:+: (ag.verify s.draftAnswer s.documents).data)
  · have hb : (workflow.containsStr "Supported: NO" (ag.verify s.draftAnswer s.documents) ||
        workflow.containsStr "Relevant: NO" (ag.verify s.draftAnswer s.documents)) = true := by
      simpa [workflow.containsStr] using h
    have hstep : workflow.stepGraph ag (workflow.Node.verify, s) =
        (workflow.Node.research, workflow.verificationStep ag s) := by
      have hdec : workflow.decideNextStep
          ((workflow.verificationStep ag s).verificationReport) = "re_research" := by
        simp [workflow.verificationStep, workflow.decideNextStep, hb]
      simp [workflow.stepGraph, hdec]
    refine ⟨?_, fun hn => absurd h hn⟩
    rw [hstep]
    exact iff_of_true rfl h
  · have h1 : ¬ ("Supported: NO".data <:+: (ag.verify s.draftAnswer s.documents).data) :=
      fun hx => h (Or.inl hx)
    have h2 : ¬ ("Relevant: NO".data <:+: (ag.verify s.draftAnswer s.documents).data) :=
      fun hx => h (Or.inr hx)
    have hb : (workflow.containsStr "Supported: NO" (ag.verify s.draftAnswer s.documents) ||
        workflow.containsStr "Relevant: NO" (ag.verify s.draftAnswer s.documents)) = false := by
      simp [workflow.containsStr, decide_eq_false h1, decide_eq_false h2]
    have hstep : workflow.stepGraph ag (workflow.Node.verify, s) =
        (workflow.Node.terminal, workflow.verificationStep ag s) := by
      have hdec : workflow.decideNextStep
          ((workflow.verificationStep ag s).verificationReport) = "end" := by
        simp [workflow.verificationStep, workflow.decideNextStep, hb]
      simp [workflow.stepGraph, hdec]
    refine ⟨?_, fun _ => hstep⟩
    rw [hstep]
    exact iff_of_false (by simp) h

theorem verify_decision_markers_witness :
    workflow.stepGraph workflow.unparsableAgents
        (workflow.Node.verify, workflow.initState workflow.unparsableAgents "q") =
      (workflow.Node.terminal,
        { workflow.initState workflow.unparsableAgents "q" with
            verificationReport := "gibberish with no markers",
            verifyCalls := 1 }) :=
  (verify_decision_markers workflow.unparsableAgents
      (workflow.initState workflow.unparsableAgents "q")).2 (by decide)

/-- C5 counterexample: with an embeddings backend configured, a second
`process` call over two files sharing a chunk verbatim loads the second
file's still-valid embeddings cache after the deduplication step, so
the output contains the shared chunk twice. -/
theorem chunk_dedup_counterexample :
    ∃ l, (docproc.process docproc.embCfg docproc.cacheAfterB
        [docproc.fileA, docproc.fileB] 300).1 = Except.ok l ∧
      ¬ (l.map fun d => fingerprint d.content).Nodup :=
  ⟨[docproc.sharedChunkE, docproc.sharedChunkE], rfl, by decide⟩

/-- C5 (amended): when no embeddings backend is configured (as in the
app, which constructs `DocumentProcessor()` without embeddings), the
chunks returned by `process` have pairwise distinct content
fingerprints — a chunk appearing verbatim in two files is kept exactly
once.  (With an embeddings backend, a valid embeddings-cache entry is
loaded after deduplication and can reintroduce duplicates.) -/
theorem chunk_dedup_amended (cfg : docproc.ProcConfig) (cache0 : docproc.Cache)
    (files : List docproc.InputFile) (maxChunks : Nat)
    (hemb : cfg.hasEmbeddings = false) {l : List Doc} {c : docproc.Cache}
    (hok : docproc.process cfg cache0 files maxChunks = (Except.ok l, c)) :
    (l.map fun d => fingerprint d.content).Nodup := by
  unfold docproc.process at hok
  by_cases hsz : docproc.totalSize files > cfg.maxTotalSize
  · rw [if_pos hsz] at hok
    have := congrArg Prod.fst hok
    simp at this
  · rw [if_neg hsz] at hok
    have hl : (files.foldl (docproc.processFile cfg)
        { cache := cache0, allChunks := [], seen := [] }).allChunks.take maxChunks = l := by
      have := congrArg Prod.fst hok
      simpa using this
    have hinv := docproc.DedupInv_foldl cfg hemb files
      { cache := cache0, allChunks := [], seen := [] } ⟨by simp, by simp⟩
    rw [← hl, List.map_take]
    exact List.Nodup.sublist (List.take_sublist _ _) hinv.1

theorem chunk_dedup_amended_witness :
    ([docproc.sharedChunk].map fun d => fingerprint d.content).Nodup :=
  chunk_dedup_amended docproc.noEmbCfg [] [docproc.fileA, docproc.fileB] 300 rfl rfl

/-- C6: a batch whose total byte size exceeds the configured ceiling
makes `process` fail with the size-limit error before anything is
processed: no chunk is produced and the cache directory is returned
unchanged. -/
theorem size_limit_fail_fast (cfg : docproc.ProcConfig) (cache0 : docproc.Cache)
    (files : List docproc.InputFile) (maxChunks : Nat)
    (h : docproc.totalSize files > cfg.maxTotalSize) :
    docproc.process cfg cache0 files maxChunks =
      (Except.error docproc.sizeLimitError, cache0) := by
  unfold docproc.process
  rw [if_pos h]

theorem size_limit_fail_fast_witness :
    docproc.process docproc.embCfg [] [docproc.bigFile] 300 =
      (Except.error docproc.sizeLimitError, []) :=
  size_limit_fail_fast docproc.embCfg [] [docproc.bigFile] 300 (by decide)

/-- C7: once the total-size check passes, a failing file (unreadable,
extraction error, or one yielding no chunks, e.g. an unsupported
extension) contributes nothing and changes nothing: `process` over the
batch equals `process` over the batch with the failing file removed, so
every remaining file is still processed. -/
theorem perfile_failure_isolation (cfg : docproc.ProcConfig) (cache0 : docproc.Cache)
    (pre post : List docproc.InputFile) (bad : docproc.InputFile) (maxChunks : Nat)
    (hsz : docproc.totalSize (pre ++ [bad] ++ post) ≤ cfg.maxTotalSize)
    (hbad : docproc.fileFails
        (List.foldl (docproc.processFile cfg)
          { cache := cache0, allChunks := [], seen := [] } pre).cache cfg bad = true) :
    docproc.process cfg cache0 (pre ++ [bad] ++ post) maxChunks =
      docproc.process cfg cache0 (pre ++ post) maxChunks := by
  have he : docproc.totalSize (pre ++ [bad] ++ post) =
      docproc.totalSize pre + docproc.totalSize [bad] + docproc.totalSize post := by
    rw [docproc.totalSize_append, docproc.totalSize_append]
  have he2 : docproc.totalSize (pre ++ post) =
      docproc.totalSize pre + docproc.totalSize post := docproc.totalSize_append pre post
  unfold docproc.process
  rw [if_neg (show ¬ docproc.totalSize (pre ++ [bad] ++ post) > cfg.maxTotalSize by omega),
    if_neg (show ¬ docproc.totalSize (pre ++ post) > cfg.maxTotalSize by omega)]
  have hfold : (pre ++ [bad] ++ post).foldl (docproc.processFile cfg)
      { cache := cache0, allChunks := [], seen := [] } =
      (pre ++ post).foldl (docproc.processFile cfg)
        { cache := cache0, allChunks := [], seen := [] } := by
    rw [List.foldl_append, List.foldl_append, List.foldl_append]
    have hb : List.foldl (docproc.processFile cfg)
        (List.foldl (docproc.processFile cfg)
          { cache := cache0, allChunks := [], seen := [] } pre) [bad] =
        List.foldl (docproc.processFile cfg)
          { cache := cache0, allChunks := [], seen := [] } pre := by
      simpa using docproc.processFile_fails cfg _ bad hbad
    rw [hb]
  rw [hfold]

theorem perfile_failure_isolation_witness :
    docproc.process docproc.noEmbCfg [] ([] ++ [docproc.badDocx] ++ [docproc.fileB]) 300 =
      docproc.process docproc.noEmbCfg [] ([] ++ [docproc.fileB]) 300 :=
  perfile_failure_isolation docproc.noEmbCfg [] [] [docproc.fileB] docproc.badDocx 300
    (by decide) (by decide)

/-- C8: a chunk cache entry is reused exactly when its age, measured
from the timestamp recorded when it was written, is strictly below the
expiry window; an entry at or past the window is not reused — the file
is re-extracted and a fresh entry carrying the current timestamp is
persisted. -/
theorem cache_expiry_reuse (cfg : docproc.ProcConfig) (st : docproc.PState)
    (f : docproc.InputFile) (bytes : String) (ts : Int) (payload cs : List Doc)
    (hemb : cfg.hasEmbeddings = false)
    (hread : f.readResult = some bytes)
    (hentry : docproc.lookupCache st.cache (fingerprint bytes ++ "_chunks") =
      some { timestamp := ts, chunks := payload })
    (hext : f.extract = some cs) (hcs : cs ≠ []) :
    (cfg.now - ts < cfg.expiry →
      docproc.processFile cfg st f =
        { st with
            allChunks := st.allChunks ++ (docproc.dedupChunks st.seen payload).1,
            seen := (docproc.dedupChunks st.seen payload).2 }) ∧
    (cfg.expiry ≤ cfg.now - ts →
      docproc.lookupCache (docproc.processFile cfg st f).cache
          (fingerprint bytes ++ "_chunks") =
        some { timestamp := cfg.now, chunks := cs } ∧
      (docproc.processFile cfg st f).allChunks =
        st.allChunks ++ (docproc.dedupChunks st.seen cs).1) := by
  constructor
  · intro hvalid
    have hc : docproc.cacheLookupValid st.cache (fingerprint bytes ++ "_chunks")
        cfg.now cfg.expiry = some payload := by
      simp [docproc.cacheLookupValid, hentry, hvalid]
    have hpf : docproc.processFile cfg st f =
        docproc.afterDedup cfg st payload (fingerprint bytes ++ "_embeddings") := by
      simp [docproc.processFile, hread, hc]
    rw [hpf]
    exact docproc.afterDedup_noEmb cfg st payload _ hemb
  · intro hexp
    have hc : docproc.cacheLookupValid st.cache (fingerprint bytes ++ "_chunks")
        cfg.now cfg.expiry = none := by
      simp only [docproc.cacheLookupValid, hentry]
      rw [if_neg (by omega)]
    cases cs with
    | nil => exact absurd rfl hcs
    | cons ch cs' =>
      have hpf : docproc.processFile cfg st f =
          docproc.afterDedup cfg
            { st with cache := (docproc.writeCache st.cache
                (fingerprint bytes ++ "_chunks") ⟨cfg.now, ch :: cs'⟩) }
            (ch :: cs') (fingerprint bytes ++ "_embeddings") := by
        simp [docproc.processFile, hread, hc, hext]
      rw [hpf, docproc.afterDedup_noEmb _ _ _ _ hemb]
      exact ⟨docproc.lookupCache_write_self st.cache _ _, rfl⟩

theorem cache_expiry_reuse_witness :
    docproc.processFile docproc.noEmbCfg docproc.cachedState docproc.cachedFile =
      { docproc.cachedState with
          allChunks := docproc.cachedState.allChunks ++
            (docproc.dedupChunks docproc.cachedState.seen [docproc.sharedChunk]).1,
          seen := (docproc.dedupChunks docproc.cachedState.seen [docproc.sharedChunk]).2 } :=
  (cache_expiry_reuse docproc.noEmbCfg docproc.cachedState docproc.cachedFile
      "cached bytes" 0 [docproc.sharedChunk] [docproc.sharedChunk] rfl rfl rfl rfl
      (by decide)).1 (by decide)

/-- C9 counterexample: the code's fusion never ranks a sole vector
result above a sole (distinct) lexical result — no vector-favouring
weighting is applied, default or otherwise. -/
theorem fusion_weighting_counterexample :
    ¬ hybrid.fusionFavoursVector hybrid.getRelevantDocuments := by
  intro h
  have hx := h { content := "lexical hit" } { content := "vector hit" } (by decide)
  exact absurd hx (by decide)

/-- C9 (amended): the hybrid retriever applies no fusion weighting at
all: the fused output is the kept BM25 results, in their order,
followed by the kept vector results, in their order — lexical results
take absolute precedence.  The only construction-time configuration is
the sub-retriever list; no lexical/vector weighting value (let alone a
60/40 default) exists. -/
theorem fusion_unweighted (lex vec : List Doc) :
    ∃ lexKept vecKept,
      hybrid.getRelevantDocuments [lex, vec] = lexKept ++ vecKept ∧
        List.Sublist lexKept lex ∧ List.Sublist vecKept vec :=
  ⟨(hybrid.fuseOne [] lex).1, (hybrid.fuseOne (hybrid.fuseOne [] lex).2 vec).1,
    hybrid.getRelevantDocuments_pair lex vec,
    hybrid.fuseOne_sublist lex [], hybrid.fuseOne_sublist vec _⟩

/-- C10: a file whose extraction and splitting yield zero chunks
(including any unsupported extension) leaves the processing state —
cache directory included — completely unchanged: no chunk cache entry
is written for its fingerprint and no chunks are contributed, so every
later call re-extracts it. -/
theorem zero_chunk_no_cache_write (cfg : docproc.ProcConfig) (st : docproc.PState)
    (f : docproc.InputFile) (bytes : String)
    (hread : f.readResult = some bytes)
    (hnocache : docproc.cacheLookupValid st.cache (fingerprint bytes ++ "_chunks")
      cfg.now cfg.expiry = none)
    (hext : f.extract = some []) :
    docproc.processFile cfg st f = st := by
  simp [docproc.processFile, hread, hnocache, hext]

theorem zero_chunk_no_cache_write_witness :
    docproc.processFile docproc.embCfg docproc.emptyPState docproc.badDocx =
      docproc.emptyPState :=
  zero_chunk_no_cache_write docproc.embCfg docproc.emptyPState docproc.badDocx
    "docx bytes" rfl rfl rfl
